import Mathlib

/-!
Verification of the `precommit` pre-commit check orchestrator.

The definitions below are a shallow embedding of the Python sources
(`precommitlib/checks.py`, `precommitlib/main.py`, `tests.py`).  The module
`precommitlib/lib.py` (the `BaseCheck.filter` helper, the `Problem` record and
the `Precommit` engine) is not part of the available sources; those parts are
modelled from the specification document and are marked as such in their doc
comments.
-/

namespace Precommit

/-! ## Glob matching (shell-style wildcards)

Modelled from the spec: `lib.py` (which implements the filter via `fnmatch`)
is not in the sources.  The spec demands standard shell-style wildcard
matching with `*`, `?` and character classes, applied to the whole path. -/

/-- Scan a character-class body up to the closing `]`.  Returns the class body
and the remaining pattern, or `none` when the class is unterminated. -/
def scanClose : List Char → Option (List Char × List Char)
  | [] => none
  | ']' :: t => some ([], t)
  | c :: t =>
    match scanClose t with
    | some (body, rest) => some (c :: body, rest)
    | none => none

/-- Split a character class from the pattern following `[`: an optional `!`
negation, a leading `]` taken literally, then the body up to the closing `]`. -/
def splitClass (s : List Char) : Option (Bool × List Char × List Char) :=
  match s with
  | '!' :: ']' :: rest2 => (scanClose rest2).map (fun pr => (true, ']' :: pr.1, pr.2))
  | '!' :: rest1 => (scanClose rest1).map (fun pr => (true, pr.1, pr.2))
  | ']' :: rest2 => (scanClose rest2).map (fun pr => (false, ']' :: pr.1, pr.2))
  | _ => (scanClose s).map (fun pr => (false, pr.1, pr.2))

/-- Membership of a character in a class body, with `a-z` ranges. -/
def classMember : List Char → Char → Bool
  | a :: '-' :: b :: rest, c =>
    (decide (a.toNat ≤ c.toNat) && decide (c.toNat ≤ b.toNat)) || classMember rest c
  | a :: rest, c => (a == c) || classMember rest c
  | [], _ => false

/-- Fuelled wildcard matcher.  Every step consumes at least one character of
the pattern or of the string, so fuel `pattern.length + string.length + 1`
always suffices; the fuel only makes the recursion structural. -/
def matchGlobF : Nat → List Char → List Char → Bool
  | 0, _, _ => false
  | fuel + 1, p, s =>
    match p, s with
    | [], [] => true
    | [], _ :: _ => false
    | '*' :: ps, [] => matchGlobF fuel ps []
    | '*' :: ps, c :: t => matchGlobF fuel ps (c :: t) || matchGlobF fuel ('*' :: ps) t
    | '?' :: _, [] => false
    | '?' :: ps, _ :: t => matchGlobF fuel ps t
    | '[' :: ps, s' =>
      match splitClass ps with
      | some (neg, body, rest) =>
        match s' with
        | [] => false
        | c :: t => ((classMember body c) != neg) && matchGlobF fuel rest t
      | none =>
        match s' with
        | [] => false
        | c :: t => (c == '[') && matchGlobF fuel ps t
    | pc :: ps, [] =>
      match pc, ps with
      | _, _ => false
    | pc :: ps, c :: t => (pc == c) && matchGlobF fuel ps t

/-- Shell-style wildcard match of a whole string against a pattern. -/
def matchGlob (p s : List Char) : Bool :=
  matchGlobF (p.length + s.length + 1) p s

/-- `fnmatch`-style matching on strings. -/
def fnmatch (pat s : String) : Bool :=
  matchGlob pat.data s.data

/-- The pattern `*` matches every string, given enough fuel. -/
theorem matchGlobF_star (s : List Char) :
    ∀ fuel, s.length + 2 ≤ fuel → matchGlobF fuel ['*'] s = true := by
  induction s with
  | nil =>
    intro fuel h
    match fuel, h with
    | f + 2, _ => simp [matchGlobF]
  | cons c t ih =>
    intro fuel h
    match fuel, h with
    | f + 1, h =>
      have hf : t.length + 2 ≤ f := by
        simp only [List.length_cons] at h
        omega
      simp [matchGlobF, ih f hf]

/-- The pattern `*` matches every string. -/
theorem matchGlob_star (s : List Char) : matchGlob ['*'] s = true := by
  unfold matchGlob
  exact matchGlobF_star s _ (by simp; omega)

theorem fnmatch_star (s : String) : fnmatch "*" s = true := by
  unfold fnmatch
  have : ("*" : String).data = ['*'] := rfl
  rw [this]
  exact matchGlob_star s.data

/-! ## Filter configuration and `BaseCheck.filter` -/

/-- Include/exclude glob configuration of a Check (the `include`/`exclude`
constructor arguments of `BaseCheck`; `include` is a Lean keyword, hence the
field names). -/
structure FilterConfig where
  includePats : List String
  excludePats : List String
deriving DecidableEq

/-- Modelled from the spec: `BaseCheck.filter` lives in `precommitlib/lib.py`,
which is absent from the sources.  Spec 4.1: return the subset of paths
matching at least one include pattern and no exclude pattern; an empty include
list is treated as `["*"]`, an empty exclude list matches nothing. -/
def BaseCheck.filter (cfg : FilterConfig) (paths : List String) : List String :=
  let inc := if cfg.includePats.isEmpty then ["*"] else cfg.includePats
  paths.filter fun p =>
    inc.any (fun pat => fnmatch pat p) && !(cfg.excludePats.any fun pat => fnmatch pat p)

/-- **C1**: `BaseCheck.filter` returns a subset of its input containing exactly
the paths that match at least one include pattern (an empty include list being
treated as `["*"]`, which matches every path) and match no exclude pattern,
with exclude taking precedence; with both lists empty the input comes back
unchanged. -/
theorem filter_correct (cfg : FilterConfig) (paths : List String) :
    (BaseCheck.filter cfg paths ⊆ paths)
    ∧ (∀ p, p ∈ BaseCheck.filter cfg paths ↔
        p ∈ paths
        ∧ (if cfg.includePats.isEmpty then ["*"] else cfg.includePats).any
            (fun pat => fnmatch pat p) = true
        ∧ cfg.excludePats.any (fun pat => fnmatch pat p) = false)
    ∧ (∀ p, (["*"] : List String).any (fun pat => fnmatch pat p) = true)
    ∧ (BaseCheck.filter ⟨[], []⟩ paths = paths) := by
  refine ⟨?_, ?_, ?_, ?_⟩
  · intro p hp
    exact List.mem_of_mem_filter hp
  · intro p
    unfold BaseCheck.filter
    simp only [List.mem_filter, Bool.and_eq_true, Bool.not_eq_true']
  · intro p
    simp [List.any, fnmatch_star]
  · unfold BaseCheck.filter
    rw [List.filter_eq_self]
    intro p _
    simp [List.any, fnmatch_star]

/-! ## Data model -/

/-- A reported finding (`Problem` in `precommitlib/lib.py`, absent from the
sources; constructor usage in `checks.py` fixes the field order:
`Problem(message, autofix)`, both optional).  Autofix actions are commands
(argument lists); the callable variant is not exercised by the sources. -/
structure Problem where
  message : Option String := none
  autofix : Option (List String) := none
deriving DecidableEq

/-- The repository view: the three file lists supplied by the version-control
system (`get_staged_files`, `get_staged_for_deletion_files`,
`get_unstaged_files` in `tests.py`). -/
structure Repository where
  staged : List String
  stagedForDeletion : List String
  unstaged : List String
deriving DecidableEq

/-- The observable outcome of one `check()` call: the optional `Problem`
return value, the lines printed through `fs.print`, and the external commands
invoked through `fs.run`. -/
structure CheckOutput where
  problem : Option Problem
  printed : List String := []
  cmds : List (List String) := []
deriving DecidableEq

/-- Helper for `firstDedup`: drop elements already seen. -/
def firstDedupAux (seen : List String) : List String → List String
  | [] => []
  | x :: xs =>
    if x ∈ seen then firstDedupAux seen xs
    else x :: firstDedupAux (seen ++ [x]) xs

/-- First-occurrence deduplication; used to model iteration over a Python
`set` built from a list, keeping the order in which elements first appear. -/
def firstDedup (l : List String) : List String := firstDedupAux [] l

theorem mem_firstDedupAux (p : String) (l : List String) :
    ∀ seen, p ∈ firstDedupAux seen l ↔ p ∈ l ∧ p ∉ seen := by
  induction l with
  | nil => intro seen; simp [firstDedupAux]
  | cons x xs ih =>
    intro seen
    by_cases hx : x ∈ seen
    · rw [firstDedupAux, if_pos hx]
      rw [ih seen]
      simp only [List.mem_cons]
      constructor
      · rintro ⟨h1, h2⟩; exact ⟨Or.inr h1, h2⟩
      · rintro ⟨h1 | h1, h2⟩
        · exact absurd (h1 ▸ hx) h2
        · exact ⟨h1, h2⟩
    · rw [firstDedupAux, if_neg hx]
      simp only [List.mem_cons, ih (seen ++ [x]), List.mem_append,
        List.mem_singleton]
      by_cases hp : p = x
      · subst hp; simp [hx]
      · simp [hp]

theorem mem_firstDedup (p : String) (l : List String) : p ∈ firstDedup l ↔ p ∈ l := by
  rw [firstDedup, mem_firstDedupAux]
  simp

theorem nodup_firstDedupAux (l : List String) :
    ∀ seen, (firstDedupAux seen l).Nodup := by
  induction l with
  | nil => intro seen; exact List.nodup_nil
  | cons x xs ih =>
    intro seen
    by_cases hx : x ∈ seen
    · rw [firstDedupAux, if_pos hx]; exact ih seen
    · rw [firstDedupAux, if_neg hx]
      refine List.nodup_cons.mpr ⟨?_, ih (seen ++ [x])⟩
      rw [mem_firstDedupAux]
      simp

theorem nodup_firstDedup (l : List String) : (firstDedup l).Nodup :=
  nodup_firstDedupAux l []

/-! ## `NoStagedAndUnstagedChanges` (from `checks.py`) -/

/-- The local variable `both` of `NoStagedAndUnstagedChanges.check`:
`set(repository.staged).intersection(set(repository.unstaged))`, iterated in
first-occurrence order of the staged list. -/
def bothOf (repo : Repository) : List String :=
  firstDedup (repo.staged.filter fun p => decide (p ∈ repo.unstaged))

/-- `NoStagedAndUnstagedChanges.check`: intersect the staged and unstaged
lists; when non-empty, print the intersection sorted and return a `Problem`
whose autofix is `git add` followed by the intersection.  The Check's
include/exclude configuration is received (as `self` in the source) but never
consulted. -/
def NoStagedAndUnstagedChanges.check (cfg : FilterConfig) (repo : Repository) :
    CheckOutput :=
  if (bothOf repo).isEmpty then ⟨none, [], []⟩
  else ⟨some ⟨none, some (["git", "add"] ++ bothOf repo)⟩,
        [String.intercalate "\n" (List.insertionSort (· ≤ ·) (bothOf repo))], []⟩

/-- `NoStagedAndUnstagedChanges.is_fixable` returns `True`. -/
def NoStagedAndUnstagedChanges.is_fixable : Bool := true

theorem mem_bothOf (repo : Repository) (p : String) :
    p ∈ bothOf repo ↔ p ∈ repo.staged ∧ p ∈ repo.unstaged := by
  rw [bothOf, mem_firstDedup]
  simp [List.mem_filter]

/-- **C8**: `NoStagedAndUnstagedChanges.check` returns a `Problem` iff the
staged and unstaged lists intersect; the `Problem`'s autofix is `git add`
followed by exactly the files of the intersection, and the check prints the
intersection sorted, one path per line. -/
theorem noStagedAndUnstagedChanges_correct (cfg : FilterConfig) (repo : Repository) :
    ((NoStagedAndUnstagedChanges.check cfg repo).problem.isSome ↔
        ∃ p, p ∈ repo.staged ∧ p ∈ repo.unstaged)
    ∧ (∀ pr, (NoStagedAndUnstagedChanges.check cfg repo).problem = some pr →
        pr.message = none
        ∧ ∃ L, pr.autofix = some (["git", "add"] ++ L) ∧ L.Nodup
            ∧ ∀ p, p ∈ L ↔ p ∈ repo.staged ∧ p ∈ repo.unstaged)
    ∧ ((NoStagedAndUnstagedChanges.check cfg repo).problem.isSome →
        ∃ L, (NoStagedAndUnstagedChanges.check cfg repo).printed =
              [String.intercalate "\n" L]
          ∧ L.Sorted (· ≤ ·) ∧ L.Nodup
          ∧ ∀ p, p ∈ L ↔ p ∈ repo.staged ∧ p ∈ repo.unstaged)
    ∧ ((NoStagedAndUnstagedChanges.check cfg repo).problem = none →
        (NoStagedAndUnstagedChanges.check cfg repo).printed = []) := by
  have hmem : ∀ p, p ∈ bothOf repo ↔ p ∈ repo.staged ∧ p ∈ repo.unstaged :=
    mem_bothOf repo
  have hiff : (bothOf repo).isEmpty = false ↔
      ∃ p, p ∈ repo.staged ∧ p ∈ repo.unstaged := by
    rw [List.isEmpty_eq_false_iff_exists_mem]
    constructor
    · rintro ⟨p, hp⟩; exact ⟨p, (hmem p).mp hp⟩
    · rintro ⟨p, hp⟩; exact ⟨p, (hmem p).mpr hp⟩
  by_cases hE : (bothOf repo).isEmpty
  · have hout : NoStagedAndUnstagedChanges.check cfg repo = ⟨none, [], []⟩ := by
      rw [NoStagedAndUnstagedChanges.check, if_pos hE]
    rw [hout]
    refine ⟨?_, ?_, ?_, ?_⟩
    · simp only [Option.isSome_none, Bool.false_eq_true, false_iff]
      rw [← hiff, hE]
      simp
    · intro pr h; cases h
    · intro h; simp at h
    · intro _; rfl
  · rw [Bool.not_eq_true] at hE
    have hout : NoStagedAndUnstagedChanges.check cfg repo =
        ⟨some ⟨none, some (["git", "add"] ++ bothOf repo)⟩,
         [String.intercalate "\n" (List.insertionSort (· ≤ ·) (bothOf repo))],
         []⟩ := by
      rw [NoStagedAndUnstagedChanges.check, if_neg (by rw [hE]; simp)]
    rw [hout]
    refine ⟨?_, ?_, ?_, ?_⟩
    · simpa using hiff.mp hE
    · intro pr h
      injection h with h
      subst h
      exact ⟨rfl, bothOf repo, rfl, nodup_firstDedup _, hmem⟩
    · intro _
      refine ⟨List.insertionSort (· ≤ ·) (bothOf repo), rfl,
        List.sorted_insertionSort _ _, ?_, ?_⟩
      · exact ((List.perm_insertionSort _ _).nodup_iff).mpr (nodup_firstDedup _)
      · intro p
        rw [List.mem_insertionSort]
        exact hmem p
    · intro h; cases h

/-- Witness for C8 at the repository view of `tests.py`: staged
`[main.py, ignoreme.py]`, unstaged `[main.py]`. -/
theorem noStagedAndUnstagedChanges_correct_witness :
    (⟨none, some ["git", "add", "main.py"]⟩ : Problem).message = none
    ∧ ∃ L, (⟨none, some ["git", "add", "main.py"]⟩ : Problem).autofix =
          some (["git", "add"] ++ L) ∧ L.Nodup
        ∧ ∀ p, p ∈ L ↔ p ∈ ["main.py", "ignoreme.py"] ∧ p ∈ ["main.py"] :=
  (noStagedAndUnstagedChanges_correct ⟨[], []⟩
      ⟨["main.py", "ignoreme.py"], [], ["main.py"]⟩).2.1
    ⟨none, some ["git", "add", "main.py"]⟩ (by decide)

/-- **C9**: the outcome of `NoStagedAndUnstagedChanges.check` depends only on
the repository view's staged and unstaged lists: the check never consults its
include/exclude configuration, so any two invocations whose views agree on
those two lists — the staged-for-deletion list and the configurations may
differ arbitrarily — produce identical outcomes (`Problem` or nothing,
autofix contents and printed output). -/
theorem noStagedAndUnstagedChanges_ignores_filter
    (cfg₁ cfg₂ : FilterConfig) (repo₁ repo₂ : Repository)
    (hs : repo₁.staged = repo₂.staged) (hu : repo₁.unstaged = repo₂.unstaged) :
    NoStagedAndUnstagedChanges.check cfg₁ repo₁ =
      NoStagedAndUnstagedChanges.check cfg₂ repo₂ := by
  have hb : bothOf repo₁ = bothOf repo₂ := by
    rw [bothOf, bothOf, hs, hu]
  rw [NoStagedAndUnstagedChanges.check, NoStagedAndUnstagedChanges.check, hb]

/-- Witness for C9: identical staged/unstaged lists, different
staged-for-deletion lists and different include/exclude configurations give
the same outcome. -/
theorem noStagedAndUnstagedChanges_ignores_filter_witness :
    NoStagedAndUnstagedChanges.check ⟨[], []⟩
        ⟨["main.py", "ignoreme.py"], [], ["main.py"]⟩ =
      NoStagedAndUnstagedChanges.check ⟨["*.py"], ["ignoreme.py"]⟩
        ⟨["main.py", "ignoreme.py"], ["gone.py"], ["main.py"]⟩ :=
  noStagedAndUnstagedChanges_ignores_filter ⟨[], []⟩ ⟨["*.py"], ["ignoreme.py"]⟩
    ⟨["main.py", "ignoreme.py"], [], ["main.py"]⟩
    ⟨["main.py", "ignoreme.py"], ["gone.py"], ["main.py"]⟩ rfl rfl

/-! ## `DoNotSubmit` (from `checks.py`) -/

/-- The forbidden marker, built by concatenation exactly as in the source
(`"DO NOT " + "SUBMIT"`). -/
def DO_NOT_SUBMIT : String := "DO NOT " ++ "SUBMIT"

/-- A single-quote character as a string (code point 39). -/
def SQ : String := String.singleton (Char.ofNat 39)

/-- `str.encode("ascii")`: the byte sequence of an ASCII string. -/
def asciiEncode (s : String) : List Nat := s.data.map Char.toNat

/-- `bytes.upper()`: uppercase the ASCII letters `a`-`z` of a byte string. -/
def bytesUpper (bs : List Nat) : List Nat :=
  bs.map fun b => if 97 ≤ b ∧ b ≤ 122 then b - 32 else b

/-- The `bad_paths` list of `DoNotSubmit.check`: the filtered staged files
whose content bytes, uppercased, contain the marker.  `content` models
`fs.open(path, "rb").read()`. -/
def DoNotSubmit.badPaths (cfg : FilterConfig) (content : String → List Nat)
    (repo : Repository) : List String :=
  (BaseCheck.filter cfg repo.staged).filter fun p =>
    decide (asciiEncode DO_NOT_SUBMIT <:+: bytesUpper (content p))

/-- `DoNotSubmit.check`: flag every filtered staged file whose uppercased
content contains the marker; print the flagged files sorted and return a
`Problem` with a message and no autofix. -/
def DoNotSubmit.check (cfg : FilterConfig) (content : String → List Nat)
    (repo : Repository) : CheckOutput :=
  if (DoNotSubmit.badPaths cfg content repo).isEmpty then ⟨none, [], []⟩
  else ⟨some ⟨some ("file contains " ++ SQ ++ DO_NOT_SUBMIT ++ SQ), none⟩,
        [String.intercalate "\n"
          (List.insertionSort (· ≤ ·) (DoNotSubmit.badPaths cfg content repo))], []⟩

/-- **C10**: `DoNotSubmit.check` flags a staged file (after filtering) iff
that file's content bytes, uppercased, contain the ASCII marker — so matching
is case-insensitive and lower-case occurrences are also flagged; the flagged
files, and no others, are printed sorted; a flagged run returns a `Problem`
carrying a message but no autofix. -/
theorem doNotSubmit_correct (cfg : FilterConfig) (content : String → List Nat)
    (repo : Repository) :
    (∀ p, p ∈ DoNotSubmit.badPaths cfg content repo ↔
        p ∈ BaseCheck.filter cfg repo.staged
        ∧ asciiEncode DO_NOT_SUBMIT <:+: bytesUpper (content p))
    ∧ ((DoNotSubmit.check cfg content repo).problem.isSome ↔
        ∃ p ∈ BaseCheck.filter cfg repo.staged,
          asciiEncode DO_NOT_SUBMIT <:+: bytesUpper (content p))
    ∧ (∀ pr, (DoNotSubmit.check cfg content repo).problem = some pr →
        pr.message = some ("file contains " ++ SQ ++ DO_NOT_SUBMIT ++ SQ)
        ∧ pr.autofix = none)
    ∧ ((DoNotSubmit.check cfg content repo).problem.isSome →
        ∃ L, (DoNotSubmit.check cfg content repo).printed =
              [String.intercalate "\n" L]
          ∧ L.Sorted (· ≤ ·)
          ∧ ∀ p, p ∈ L ↔ p ∈ BaseCheck.filter cfg repo.staged
              ∧ asciiEncode DO_NOT_SUBMIT <:+: bytesUpper (content p))
    ∧ ((DoNotSubmit.check cfg content repo).problem = none →
        (DoNotSubmit.check cfg content repo).printed = [])
    ∧ (∀ p, asciiEncode ("do not " ++ "submit") <:+: content p →
        asciiEncode DO_NOT_SUBMIT <:+: bytesUpper (content p)) := by
  have hmem : ∀ p, p ∈ DoNotSubmit.badPaths cfg content repo ↔
      p ∈ BaseCheck.filter cfg repo.staged
      ∧ asciiEncode DO_NOT_SUBMIT <:+: bytesUpper (content p) := by
    intro p
    rw [DoNotSubmit.badPaths, List.mem_filter, decide_eq_true_eq]
  have hlower : ∀ p, asciiEncode ("do not " ++ "submit") <:+: content p →
      asciiEncode DO_NOT_SUBMIT <:+: bytesUpper (content p) := by
    intro p h
    have hmap := List.IsInfix.map (fun b => if 97 ≤ b ∧ b ≤ 122 then b - 32 else b) h
    have hval : (asciiEncode ("do not " ++ "submit")).map
        (fun b => if 97 ≤ b ∧ b ≤ 122 then b - 32 else b) =
        asciiEncode DO_NOT_SUBMIT := by decide
    rw [hval] at hmap
    exact hmap
  by_cases hE : (DoNotSubmit.badPaths cfg content repo).isEmpty
  · have hout : DoNotSubmit.check cfg content repo = ⟨none, [], []⟩ := by
      rw [DoNotSubmit.check, if_pos hE]
    refine ⟨hmem, ?_, ?_, ?_, ?_, hlower⟩
    · rw [hout]
      simp only [Option.isSome_none, Bool.false_eq_true, false_iff]
      rw [List.isEmpty_iff] at hE
      intro hex
      rcases hex with ⟨p, hp, hinf⟩
      have : p ∈ DoNotSubmit.badPaths cfg content repo := (hmem p).mpr ⟨hp, hinf⟩
      rw [hE] at this
      cases this
    · rw [hout]; intro pr h; cases h
    · rw [hout]; intro h; simp at h
    · rw [hout]; intro _; rfl
  · rw [Bool.not_eq_true] at hE
    have hout : DoNotSubmit.check cfg content repo =
        ⟨some ⟨some ("file contains " ++ SQ ++ DO_NOT_SUBMIT ++ SQ), none⟩,
         [String.intercalate "\n"
           (List.insertionSort (· ≤ ·) (DoNotSubmit.badPaths cfg content repo))],
         []⟩ := by
      rw [DoNotSubmit.check, if_neg (by rw [hE]; simp)]
    refine ⟨hmem, ?_, ?_, ?_, ?_, hlower⟩
    · rw [hout]
      simp only [Option.isSome_some, true_iff]
      rw [List.isEmpty_eq_false_iff_exists_mem] at hE
      rcases hE with ⟨p, hp⟩
      exact ⟨p, ((hmem p).mp hp).1, ((hmem p).mp hp).2⟩
    · rw [hout]
      intro pr h
      injection h with h
      subst h
      exact ⟨rfl, rfl⟩
    · rw [hout]
      intro _
      refine ⟨List.insertionSort (· ≤ ·) (DoNotSubmit.badPaths cfg content repo),
        rfl, List.sorted_insertionSort _ _, ?_⟩
      intro p
      rw [List.mem_insertionSort]
      exact hmem p
    · rw [hout]; intro h; cases h

/-- Witness for C10: a lower-case marker in the single staged file is flagged
and yields a `Problem` with a message and no autofix. -/
theorem doNotSubmit_correct_witness :
    (⟨some ("file contains " ++ SQ ++ DO_NOT_SUBMIT ++ SQ), none⟩ : Problem).message =
        some ("file contains " ++ SQ ++ DO_NOT_SUBMIT ++ SQ)
    ∧ (⟨some ("file contains " ++ SQ ++ DO_NOT_SUBMIT ++ SQ), none⟩ : Problem).autofix =
        none :=
  (doNotSubmit_correct ⟨[], []⟩ (fun _ => asciiEncode ("do not " ++ "submit"))
      ⟨["a.py"], [], []⟩).2.2.1
    ⟨some ("file contains " ++ SQ ++ DO_NOT_SUBMIT ++ SQ), none⟩ (by decide)

/-! ## `Command` (from `checks.py`) -/

/-- Configuration usage error (`UsageError` in `precommitlib/lib.py`). -/
structure UsageError where
  message : String
deriving DecidableEq

/-- A command-wrapping Check (class `Command` in `checks.py`). -/
structure Command where
  name : String
  cmd : List String
  fix : Option (List String) := none
  pass_files : Bool := false
  separately : Bool := false
  cfg : FilterConfig := ⟨[], []⟩
deriving DecidableEq

/-- `Command.__init__`: raises `UsageError` when `separately` is true but
`pass_files` is false, before any check or fix execution. -/
def Command.init (name : String) (cmd : List String) (fix : Option (List String))
    (pass_files separately : Bool) (cfg : FilterConfig) : Except UsageError Command :=
  if separately = true && pass_files = false then
    .error ⟨"if `separately` is True, `pass_files` must also be True"⟩
  else
    .ok ⟨name, cmd, fix, pass_files, separately, cfg⟩

/-- The trailing argument list of an aggregate-mode run: the filtered staged
files when `pass_files` is set, else nothing. -/
def Command.args (c : Command) (repo : Repository) : List String :=
  if c.pass_files then BaseCheck.filter c.cfg repo.staged else []

/-- The autofix of an aggregate-mode `Problem`:
`self.fix + args if self.fix else None`, with Python truthiness (both `None`
and the empty list are falsy). -/
def Command.fixCommandFor (c : Command) (repo : Repository) : Option (List String) :=
  match c.fix with
  | some f => if f.isEmpty then none else some (f ++ Command.args c repo)
  | none => none

/-- `Command.check`: in `separately` mode run the command once per filtered
staged file and report a `Problem` (with the declared fix as autofix) iff some
invocation exits non-zero; otherwise run the command once with the trailing
arguments and report a `Problem` iff it exits non-zero.  `run` models
`fs.run(...).returncode`. -/
def Command.check (c : Command) (run : List String → Int) (repo : Repository) :
    CheckOutput :=
  if c.separately then
    if (BaseCheck.filter c.cfg repo.staged).any
        (fun p => decide (run (c.cmd ++ [p]) ≠ 0)) then
      ⟨some ⟨none, c.fix⟩, [],
        (BaseCheck.filter c.cfg repo.staged).map fun p => c.cmd ++ [p]⟩
    else
      ⟨none, [], (BaseCheck.filter c.cfg repo.staged).map fun p => c.cmd ++ [p]⟩
  else
    if run (c.cmd ++ Command.args c repo) ≠ 0 then
      ⟨some ⟨none, Command.fixCommandFor c repo⟩, [], [c.cmd ++ Command.args c repo]⟩
    else
      ⟨none, [], [c.cmd ++ Command.args c repo]⟩

/-- `Command.is_fixable`: `self.fix is not None`. -/
def Command.is_fixable (c : Command) : Bool := c.fix.isSome

/-- **C4**: constructing a `Command` with `separately=True, pass_files=False`
raises a `UsageError` at construction time; every other flag combination
constructs successfully. -/
theorem command_init_usage (name : String) (cmd : List String)
    (fix : Option (List String)) (pass_files separately : Bool) (cfg : FilterConfig) :
    ((∃ e, Command.init name cmd fix pass_files separately cfg = .error e) ↔
      separately = true ∧ pass_files = false)
    ∧ (Command.init name cmd fix pass_files separately cfg =
        .ok ⟨name, cmd, fix, pass_files, separately, cfg⟩ ↔
      ¬(separately = true ∧ pass_files = false)) := by
  cases separately <;> cases pass_files <;> simp [Command.init]

/-- **C2**: one run of `Command.check` returns a `Problem` iff the wrapped
command exits non-zero (in `separately` mode: iff some per-file invocation
exits non-zero); in aggregate mode with files passed and a declared (non-empty)
fix command, the `Problem`'s autofix is the fix command followed by the
filtered staged files; with no declared fix the autofix is absent. -/
theorem command_check_correct (c : Command) (run : List String → Int)
    (repo : Repository) (f : List String) :
    ((c.check run repo).problem.isSome ↔
      (if c.separately = true then
        ∃ p ∈ BaseCheck.filter c.cfg repo.staged, run (c.cmd ++ [p]) ≠ 0
      else run (c.cmd ++ Command.args c repo) ≠ 0))
    ∧ (c.separately = false → c.pass_files = true → c.fix = some f → f ≠ [] →
        run (c.cmd ++ BaseCheck.filter c.cfg repo.staged) ≠ 0 →
        (c.check run repo).problem =
          some ⟨none, some (f ++ BaseCheck.filter c.cfg repo.staged)⟩)
    ∧ (c.fix = none → ∀ pr, (c.check run repo).problem = some pr →
        pr.autofix = none) := by
  by_cases hs : c.separately
  · have hors : (if c.separately = true then
        ∃ p ∈ BaseCheck.filter c.cfg repo.staged, run (c.cmd ++ [p]) ≠ 0
      else run (c.cmd ++ Command.args c repo) ≠ 0) =
        ∃ p ∈ BaseCheck.filter c.cfg repo.staged, run (c.cmd ++ [p]) ≠ 0 :=
      if_pos hs
    rw [Command.check, if_pos hs, hors]
    by_cases hA : (BaseCheck.filter c.cfg repo.staged).any
        (fun p => decide (run (c.cmd ++ [p]) ≠ 0))
    · rw [if_pos hA]
      refine ⟨?_, ?_, ?_⟩
      · simp only [Option.isSome_some, true_iff]
        rw [List.any_eq_true] at hA
        rcases hA with ⟨p, hp, hr⟩
        exact ⟨p, hp, by simpa using hr⟩
      · intro h; cases hs.symm.trans h
      · intro hfix pr h
        injection h with h
        subst h
        simpa using hfix
    · rw [if_neg hA]
      refine ⟨?_, ?_, ?_⟩
      · simp only [Option.isSome_none, Bool.false_eq_true, false_iff]
        intro hex
        rcases hex with ⟨p, hp, hr⟩
        exact hA (List.any_eq_true.mpr ⟨p, hp, by simpa using hr⟩)
      · intro h; cases hs.symm.trans h
      · intro _ pr h; cases h
  · rw [Bool.not_eq_true] at hs
    have hors : (if c.separately = true then
        ∃ p ∈ BaseCheck.filter c.cfg repo.staged, run (c.cmd ++ [p]) ≠ 0
      else run (c.cmd ++ Command.args c repo) ≠ 0) =
        (run (c.cmd ++ Command.args c repo) ≠ 0) := by
      rw [hs]; simp
    rw [Command.check, hors, hs]
    simp only [Bool.false_eq_true, if_false]
    by_cases hr : run (c.cmd ++ Command.args c repo) ≠ 0
    · rw [if_pos hr]
      refine ⟨by simpa using hr, ?_, ?_⟩
      · intro _ hp hfix hfne hrun
        have hargs : Command.args c repo = BaseCheck.filter c.cfg repo.staged := by
          rw [Command.args, if_pos hp]
        have : Command.fixCommandFor c repo =
            some (f ++ BaseCheck.filter c.cfg repo.staged) := by
          rw [Command.fixCommandFor, hfix]
          simp [hargs, List.isEmpty_iff, hfne]
        rw [this]
      · intro hfix pr h
        injection h with h
        subst h
        show Command.fixCommandFor c repo = none
        rw [Command.fixCommandFor, hfix]
    · rw [if_neg hr]
      refine ⟨by simpa using hr, ?_, ?_⟩
      · intro _ hp hfix hfne hrun
        have hargs : Command.args c repo = BaseCheck.filter c.cfg repo.staged := by
          rw [Command.args, if_pos hp]
        rw [hargs] at hr
        exact absurd hrun hr
      · intro _ pr h; cases h

/-- Witness for C2 at the `PythonFormat` configuration of the sources (`black
--check` over `*.py`, fix `black`) with a failing command on the staged set of
`tests.py`. -/
theorem command_check_correct_witness :
    (Command.check
        ⟨"PythonFormat", ["black", "--check"], some ["black"], true, false,
          ⟨["*.py"], []⟩⟩
        (fun _ => 1)
        ⟨["main.py", "ignoreme.py"], [], ["main.py"]⟩).problem =
      some ⟨none, some (["black"] ++
        BaseCheck.filter ⟨["*.py"], []⟩ ["main.py", "ignoreme.py"])⟩ :=
  (command_check_correct
      ⟨"PythonFormat", ["black", "--check"], some ["black"], true, false,
        ⟨["*.py"], []⟩⟩
      (fun _ => 1)
      ⟨["main.py", "ignoreme.py"], [], ["main.py"]⟩ ["black"]).2.1
    rfl rfl rfl (by decide) (by decide)

/-! ## Command-line handling (from `main.py`) -/

/-- `SHORT_FLAGS` of `main.py`. -/
def SHORT_FLAGS : List (String × String) := [("-f", "--force"), ("-h", "--help")]

/-- `FLAGS` of `main.py`: each flag with the subcommands it is valid for; an
empty list means the flag is valid for any subcommand. -/
def FLAGS : List (String × List String) :=
  [("--color", []), ("--no-color", []), ("--help", []),
   ("--verbose", ["fix", "check"]), ("--all", ["fix", "check"]),
   ("--force", ["init"]), ("--dry-run", ["fix"])]

/-- `SUBCOMMANDS` of `main.py`. -/
def SUBCOMMANDS : List String := ["init", "fix", "help", "check"]

/-- The parsed command line (`Args` namedtuple of `main.py`); `flags` is the
ordered list of distinct long-flag names that were set. -/
structure Args where
  subcommand : String
  positional : List String
  flags : List String
deriving DecidableEq

/-- `arg.startswith("-")`. -/
def startsWithDash (arg : String) : Bool :=
  match arg.data with
  | c :: _ => c == '-'
  | [] => false

/-- `flags[arg] = True` on a Python dict: a re-inserted key keeps its
position, so insert only if absent. -/
def insertFlag (flags : List String) (f : String) : List String :=
  if f ∈ flags then flags else flags ++ [f]

/-- The argument loop of `parse_args`: `--` turns on force-positional mode
and is itself consumed, a leading dash marks a flag (short flags are expanded)
unless force-positional is on, everything else is positional. -/
def parseLoop : List String → Bool → List String → List String →
    List String × List String
  | [], _, positional, flags => (positional, flags)
  | arg :: rest, forcePositional, positional, flags =>
    if arg = "--" then parseLoop rest true positional flags
    else if !forcePositional && startsWithDash arg then
      parseLoop rest forcePositional positional
        (insertFlag flags
          (match SHORT_FLAGS.lookup arg with
           | some long => long
           | none => arg))
    else parseLoop rest forcePositional (positional ++ [arg]) flags

/-- `parse_args`: run the loop, then take the first positional as the
subcommand (defaulting to `check`). -/
def parse_args (argv : List String) : Args :=
  match parseLoop argv false [] [] with
  | (positional, flags) =>
    match positional with
    | [] => ⟨"check", [], flags⟩
    | sub :: rest => ⟨sub, rest, flags⟩

/-- The body of the flag-validation loop of `check_args` for one flag. -/
def flagError (sub f : String) : Option String :=
  match FLAGS.lookup f with
  | none => some ("unknown flag: " ++ f)
  | some valid =>
    if valid ≠ [] ∧ sub ∉ valid then
      some ("flag " ++ f ++ " not valid for " ++ sub ++ " subcommand")
    else none

/-- The flag-validation loop of `check_args`: first offending flag wins. -/
def findFlagError (sub : String) : List String → Option String
  | [] => none
  | f :: fs =>
    match flagError sub f with
    | some m => some m
    | none => findFlagError sub fs

/-- `check_args` of `main.py`: reject positional arguments, unknown
subcommands, the color-flag conflict, then unknown or subcommand-invalid
flags, in that order. -/
def check_args (a : Args) : Option String :=
  if a.positional ≠ [] then some "precommit does not take positional arguments"
  else if a.subcommand ∉ SUBCOMMANDS then
    some ("unknown subcommand: " ++ a.subcommand)
  else if "--no-color" ∈ a.flags ∧ "--color" ∈ a.flags then
    some "--color and --no-color are incompatible"
  else findFlagError a.subcommand a.flags

/-- The observable outcome of one `main()` invocation for the purposes of
argument handling: exit code, the `error()` message if any, whether the
configuration file was loaded, and how many Checks executed. -/
structure MainResult where
  exitCode : Nat
  errorMessage : Option String
  configLoaded : Bool
  checksExecuted : Nat
deriving DecidableEq

/-- `main()` up to argument validation: when `check_args` reports a problem,
`error()` prints `Error: ...` and exits with status 1 before the configuration
is loaded and before any Check executes; otherwise the rest of `main` runs
(abstracted as `rest`). -/
def mainModel (argv : List String) (rest : Args → MainResult) : MainResult :=
  match check_args (parse_args argv) with
  | some msg => ⟨1, some ("Error: " ++ msg), false, 0⟩
  | none => rest (parse_args argv)

/-- Substring containment: the offending token appears in the message. -/
def strContains (s t : String) : Prop := t.data <:+: s.data

instance strContainsDecidable (s t : String) : Decidable (strContains s t) :=
  List.decidableInfix t.data s.data

theorem strContains_of_eq_append (m pre mid suf : String)
    (h : m = pre ++ mid ++ suf) : strContains m mid := by
  subst h
  exact ⟨pre.data, suf.data, by simp⟩

theorem strContains_append_right (s t : String) : strContains (s ++ t) t := by
  have : s ++ t = s ++ t ++ "" := by simp
  exact strContains_of_eq_append _ s t "" this

theorem flagError_contains (sub f m : String) (h : flagError sub f = some m) :
    strContains m f := by
  rw [flagError] at h
  cases hf : FLAGS.lookup f with
  | none =>
    rw [hf] at h
    injection h with h
    subst h
    exact strContains_append_right _ _
  | some valid =>
    rw [hf] at h
    have h' : (if valid ≠ [] ∧ sub ∉ valid then
        some ("flag " ++ f ++ " not valid for " ++ sub ++ " subcommand")
      else none) = some m := h
    by_cases hc : valid ≠ [] ∧ sub ∉ valid
    · rw [if_pos hc] at h'
      injection h' with h'
      exact strContains_of_eq_append _ "flag " f
        (" not valid for " ++ (sub ++ " subcommand")) (by
          rw [← h']
          apply congrArg String.mk
          simp)
    · rw [if_neg hc] at h'
      cases h'

theorem findFlagError_mem (sub : String) :
    ∀ (flags : List String) (m : String), findFlagError sub flags = some m →
      ∃ f ∈ flags, flagError sub f = some m := by
  intro flags
  induction flags with
  | nil => intro m h; cases h
  | cons f fs ih =>
    intro m h
    rw [findFlagError] at h
    cases hf : flagError sub f with
    | some m' =>
      rw [hf] at h
      injection h with h
      subst h
      exact ⟨f, List.mem_cons_self f fs, hf⟩
    | none =>
      rw [hf] at h
      rcases ih m h with ⟨g, hg, hge⟩
      exact ⟨g, List.mem_cons_of_mem f hg, hge⟩

/-- **C5 counterexample**: the invocation `precommit check extra` carries an
extra positional argument `extra`; the error message is the fixed string
`precommit does not take positional arguments`, which does not name the
offending token, contradicting the claim that every rejection message names
the offending token. -/
theorem cli_positional_not_named :
    check_args (parse_args ["check", "extra"]) =
      some "precommit does not take positional arguments"
    ∧ ¬ strContains "precommit does not take positional arguments" "extra"
    ∧ mainModel ["check", "extra"] (fun _ => ⟨0, none, true, 5⟩) =
        ⟨1, some ("Error: " ++ "precommit does not take positional arguments"),
          false, 0⟩ :=
  ⟨by decide, by decide, by decide⟩

/-- **C5 (amended)**: every invocation rejected by `check_args` (unknown
flag, unknown subcommand, subcommand-invalid flag, color-flag conflict, or
extra positional arguments) makes the program print an `Error:` message and
exit with status 1 before the configuration is loaded and before any Check
executes; the message names the offending token (the bad subcommand or one of
the supplied flags) in every case except extra positional arguments, where it
is the fixed text `precommit does not take positional arguments`. -/
theorem cli_rejection (argv : List String) (msg : String)
    (rest : Args → MainResult)
    (h : check_args (parse_args argv) = some msg) :
    mainModel argv rest = ⟨1, some ("Error: " ++ msg), false, 0⟩
    ∧ ((parse_args argv).positional ≠ [] →
        msg = "precommit does not take positional arguments")
    ∧ ((parse_args argv).positional = [] →
        ∃ tok, (tok = (parse_args argv).subcommand ∨ tok ∈ (parse_args argv).flags)
          ∧ strContains msg tok) := by
  refine ⟨?_, ?_, ?_⟩
  · unfold mainModel
    rw [h]
  · intro hpos
    rw [check_args, if_pos hpos] at h
    injection h with h
    exact h.symm
  · intro hpos
    rw [check_args, if_neg (by simp [hpos])] at h
    by_cases hsub : (parse_args argv).subcommand ∉ SUBCOMMANDS
    · rw [if_pos hsub] at h
      injection h with h
      subst h
      exact ⟨(parse_args argv).subcommand, Or.inl rfl,
        strContains_append_right _ _⟩
    · rw [if_neg hsub] at h
      by_cases hcol : "--no-color" ∈ (parse_args argv).flags
          ∧ "--color" ∈ (parse_args argv).flags
      · rw [if_pos hcol] at h
        injection h with h
        subst h
        exact ⟨"--color", Or.inr hcol.2, by decide⟩
      · rw [if_neg hcol] at h
        rcases findFlagError_mem _ _ _ h with ⟨f, hf, hfe⟩
        exact ⟨f, Or.inr hf, flagError_contains _ _ _ hfe⟩

/-- Witness for C5 (amended) at the invocation `precommit --bogus`. -/
theorem cli_rejection_witness :
    mainModel ["--bogus"] (fun _ => ⟨0, none, true, 7⟩) =
      ⟨1, some ("Error: " ++ ("unknown flag: " ++ "--bogus")), false, 0⟩
    ∧ ((parse_args ["--bogus"]).positional ≠ [] →
        ("unknown flag: " ++ "--bogus") =
          "precommit does not take positional arguments")
    ∧ ((parse_args ["--bogus"]).positional = [] →
        ∃ tok, (tok = (parse_args ["--bogus"]).subcommand
            ∨ tok ∈ (parse_args ["--bogus"]).flags)
          ∧ strContains ("unknown flag: " ++ "--bogus") tok) :=
  cli_rejection ["--bogus"] ("unknown flag: " ++ "--bogus")
    (fun _ => ⟨0, none, true, 7⟩) (by decide)

/-! ## The Precommit engine

Modelled from the spec: the `Precommit` engine lives in `precommitlib/lib.py`,
absent from the sources.  Spec 4.3 describes `check_mode()` and `fix_mode()`;
the expected console output and command trace of `tests.py` fix the report
decorations, the summary lines and the final re-stage command. -/

/-- An external-state event of one engine run: a check-phase command
invocation (a read, per spec 3: `check()` has no side effects beyond
reads/prints), an executed autofix command, or the final re-stage. -/
inductive FsEvent where
  | runCmd (cmd : List String)
  | applyFix (cmd : List String)
  | restage (cmd : List String)
deriving DecidableEq

/-- Whether an event mutates shared external repository state. -/
def isMutation : FsEvent → Bool
  | .runCmd _ => false
  | .applyFix _ => true
  | .restage _ => true

/-- A registered Check as the engine sees it: display name, `is_fixable()`,
the slow/non-default marker, and the observable behaviour of `check()` on a
repository view. -/
structure EngineCheck where
  name : String
  fixable : Bool
  slow : Bool
  run : Repository → CheckOutput

/-- The Checks executed by a run: slow Checks are skipped unless `--all`. -/
def activeChecks (checkAll : Bool) (checks : List EngineCheck) : List EngineCheck :=
  checks.filter fun c => !c.slow || checkAll

/-- Accumulated state of one `fix_mode()` run. -/
structure FixState where
  report : List String := []
  problemsFound : Nat := 0
  problemsFixed : Nat := 0
  fixableChecksRun : Nat := 0
  fixesApplied : Nat := 0
  events : List FsEvent := []
deriving DecidableEq

/-- Componentwise concatenation of run states. -/
def stApp (d st : FixState) : FixState :=
  ⟨d.report ++ st.report, d.problemsFound + st.problemsFound,
   d.problemsFixed + st.problemsFixed, d.fixableChecksRun + st.fixableChecksRun,
   d.fixesApplied + st.fixesApplied, d.events ++ st.events⟩

/-- The console block printed for one fixed Check, in the decoration of
`tests.py`. -/
def fixBlockOf (dryRun : Bool) (c : EngineCheck) (out : CheckOutput) : List String :=
  ("o--[ " ++ c.name ++ " ]") :: (out.printed.map fun l => "|  " ++ l)
    ++ [if dryRun then "o--[ would fix ]" else "o--[ fixed! ]", ""]

/-- The contribution of one executed Check that is not printed by fix mode:
its check-phase commands and its `is_fixable()` tally. -/
def fixBase (c : EngineCheck) (repo : Repository) : FixState :=
  { fixableChecksRun := if c.fixable then 1 else 0,
    events := (c.run repo).cmds.map FsEvent.runCmd }

/-- One `fix_mode()` loop iteration (spec 4.3, fix-mode steps 1-3): run
`check()`; when it reports a `Problem` carrying an autofix and the Check is
fixable, print the block, count the problem as found and fixed, and execute
the autofix unless dry-run; otherwise contribute nothing to report or
counters. -/
def fixDelta (dryRun : Bool) (repo : Repository) (c : EngineCheck) : FixState :=
  match (c.run repo).problem with
  | some pr =>
    match pr.autofix with
    | some fixCmd =>
      if c.fixable then
        { fixBase c repo with
          report := fixBlockOf dryRun c (c.run repo),
          problemsFound := 1, problemsFixed := 1,
          fixesApplied := if dryRun then 0 else 1,
          events := (c.run repo).cmds.map FsEvent.runCmd
            ++ (if dryRun then [] else [FsEvent.applyFix fixCmd]) }
      else fixBase c repo
    | none => fixBase c repo
  | none => fixBase c repo

/-- The `fix_mode()` loop over a list of Checks. -/
def fixRun (dryRun : Bool) (repo : Repository) : List EngineCheck → FixState
  | [] => {}
  | c :: cs => stApp (fixDelta dryRun repo c) (fixRun dryRun repo cs)

/-- The files of the final blanket re-stage: every originally staged or
unstaged file not staged for deletion (spec 4.3 fix-mode step 5; order and
deduplication as in the `tests.py` trace). -/
def restageFiles (repo : Repository) : List String :=
  firstDedup ((repo.staged ++ repo.unstaged).filter
    fun p => decide (p ∉ repo.stagedForDeletion))

/-- The final re-stage command. -/
def restageCmd (repo : Repository) : List String :=
  ["git", "add"] ++ restageFiles repo

/-- `fix_mode()`: run the loop over the active Checks, then, if any fix was
applied and dry-run is not set, issue the single blanket re-stage. -/
def fixMode (checkAll dryRun : Bool) (checks : List EngineCheck)
    (repo : Repository) : FixState :=
  if 0 < (fixRun dryRun repo (activeChecks checkAll checks)).fixesApplied
      ∧ dryRun = false then
    stApp (fixRun dryRun repo (activeChecks checkAll checks))
      { events := [FsEvent.restage (restageCmd repo)] }
  else fixRun dryRun repo (activeChecks checkAll checks)

/-- The fix-mode summary line (spec 4.3 fix-mode step 6). -/
def fixSummary (st : FixState) : String :=
  "Ran " ++ toString st.fixableChecksRun ++ " fixable checks. Detected "
    ++ toString st.problemsFound ++ " issues. Fixed "
    ++ toString st.problemsFixed ++ " of them."

theorem stApp_nil_left (st : FixState) : stApp {} st = st := by
  cases st
  simp [stApp]

theorem stApp_assoc (a b c : FixState) :
    stApp (stApp a b) c = stApp a (stApp b c) := by
  simp [stApp, List.append_assoc, Nat.add_assoc]

theorem fixRun_append (dryRun : Bool) (repo : Repository)
    (l1 l2 : List EngineCheck) :
    fixRun dryRun repo (l1 ++ l2) =
      stApp (fixRun dryRun repo l1) (fixRun dryRun repo l2) := by
  induction l1 with
  | nil => simp [fixRun, stApp_nil_left]
  | cons c cs ih =>
    simp only [List.cons_append, fixRun, List.append_eq, ih, stApp_assoc]

theorem fixMode_report (checkAll dryRun : Bool) (checks : List EngineCheck)
    (repo : Repository) :
    (fixMode checkAll dryRun checks repo).report =
      (fixRun dryRun repo (activeChecks checkAll checks)).report := by
  rw [fixMode]
  split
  · simp [stApp]
  · rfl

theorem fixMode_problemsFound (checkAll dryRun : Bool) (checks : List EngineCheck)
    (repo : Repository) :
    (fixMode checkAll dryRun checks repo).problemsFound =
      (fixRun dryRun repo (activeChecks checkAll checks)).problemsFound := by
  rw [fixMode]
  split
  · simp [stApp]
  · rfl

theorem fixMode_problemsFixed (checkAll dryRun : Bool) (checks : List EngineCheck)
    (repo : Repository) :
    (fixMode checkAll dryRun checks repo).problemsFixed =
      (fixRun dryRun repo (activeChecks checkAll checks)).problemsFixed := by
  rw [fixMode]
  split
  · simp [stApp]
  · rfl

theorem fixMode_fixesApplied (checkAll dryRun : Bool) (checks : List EngineCheck)
    (repo : Repository) :
    (fixMode checkAll dryRun checks repo).fixesApplied =
      (fixRun dryRun repo (activeChecks checkAll checks)).fixesApplied := by
  rw [fixMode]
  split
  · simp [stApp]
  · rfl

theorem stApp_nil_right (st : FixState) : stApp st {} = st := by
  cases st
  simp [stApp]

/-- **C6**: in fix mode, an executed Check that is not fixable, or whose
`Problem` carries no autofix, is omitted from the printed report and
contributes to neither `problemsFound` nor `problemsFixed`; the summary line
reads `Ran {fixableChecksRun} fixable checks. Detected {problemsFound}
issues. Fixed {problemsFixed} of them.` -/
theorem fix_mode_unfixable_omitted (checkAll dryRun : Bool)
    (cs1 cs2 : List EngineCheck) (c : EngineCheck) (repo : Repository)
    (h : c.fixable = false
      ∨ ∃ pr, (c.run repo).problem = some pr ∧ pr.autofix = none) :
    (fixMode checkAll dryRun (cs1 ++ c :: cs2) repo).report =
        (fixMode checkAll dryRun (cs1 ++ cs2) repo).report
    ∧ (fixMode checkAll dryRun (cs1 ++ c :: cs2) repo).problemsFound =
        (fixMode checkAll dryRun (cs1 ++ cs2) repo).problemsFound
    ∧ (fixMode checkAll dryRun (cs1 ++ c :: cs2) repo).problemsFixed =
        (fixMode checkAll dryRun (cs1 ++ cs2) repo).problemsFixed
    ∧ ∀ cs : List EngineCheck,
        fixSummary (fixMode checkAll dryRun cs repo) =
          "Ran " ++ toString (fixMode checkAll dryRun cs repo).fixableChecksRun
            ++ " fixable checks. Detected "
            ++ toString (fixMode checkAll dryRun cs repo).problemsFound
            ++ " issues. Fixed "
            ++ toString (fixMode checkAll dryRun cs repo).problemsFixed
            ++ " of them." := by
  have hdelta : fixDelta dryRun repo c = fixBase c repo := by
    rcases h with hna | ⟨pr, hpr, hauto⟩
    · cases hp : (c.run repo).problem with
      | none => simp [fixDelta, hp]
      | some pr =>
        cases ha : pr.autofix with
        | none => simp [fixDelta, hp, ha]
        | some fixCmd => simp [fixDelta, hp, ha, hna]
    · simp [fixDelta, hpr, hauto]
  have hsplit : activeChecks checkAll (cs1 ++ c :: cs2) =
      activeChecks checkAll cs1
        ++ (activeChecks checkAll [c] ++ activeChecks checkAll cs2) := by
    simp only [activeChecks, ← List.filter_append]
    rfl
  have hsplit2 : activeChecks checkAll (cs1 ++ cs2) =
      activeChecks checkAll cs1 ++ activeChecks checkAll cs2 := by
    simp [activeChecks, List.filter_append]
  by_cases hac : (!c.slow || checkAll) = true
  · have hc1 : activeChecks checkAll [c] = [c] := by
      simp [activeChecks, List.filter_cons, hac]
    have hone : fixRun dryRun repo [c] = fixBase c repo := by
      show stApp (fixDelta dryRun repo c) (fixRun dryRun repo []) = fixBase c repo
      rw [hdelta]
      exact stApp_nil_right _
    have hL : fixRun dryRun repo (activeChecks checkAll (cs1 ++ c :: cs2)) =
        stApp (fixRun dryRun repo (activeChecks checkAll cs1))
          (stApp (fixBase c repo)
            (fixRun dryRun repo (activeChecks checkAll cs2))) := by
      rw [hsplit, fixRun_append, fixRun_append, hc1, hone]
    have hR : fixRun dryRun repo (activeChecks checkAll (cs1 ++ cs2)) =
        stApp (fixRun dryRun repo (activeChecks checkAll cs1))
          (fixRun dryRun repo (activeChecks checkAll cs2)) := by
      rw [hsplit2, fixRun_append]
    refine ⟨?_, ?_, ?_, fun cs => rfl⟩
    · rw [fixMode_report, fixMode_report, hL, hR]
      simp [stApp, fixBase]
    · rw [fixMode_problemsFound, fixMode_problemsFound, hL, hR]
      simp [stApp, fixBase]
    · rw [fixMode_problemsFixed, fixMode_problemsFixed, hL, hR]
      simp [stApp, fixBase]
  · have hc1 : activeChecks checkAll [c] = [] := by
      rw [Bool.not_eq_true] at hac
      simp [activeChecks, List.filter_cons, hac]
    have heq : activeChecks checkAll (cs1 ++ c :: cs2) =
        activeChecks checkAll (cs1 ++ cs2) := by
      rw [hsplit, hc1, hsplit2]
      simp
    refine ⟨?_, ?_, ?_, fun cs => rfl⟩
    · rw [fixMode_report, fixMode_report, heq]
    · rw [fixMode_problemsFound, fixMode_problemsFound, heq]
    · rw [fixMode_problemsFixed, fixMode_problemsFixed, heq]

/-- A non-fixable Check reporting a message-only `Problem`, as `DoNotSubmit`
does in the `tests.py` scenario. -/
def sampleUnfixableCheck : EngineCheck :=
  ⟨"DoNotSubmit", false, false,
    fun _ => ⟨some ⟨some "file contains marker", none⟩, [], []⟩⟩

/-- The repository view of `tests.py`. -/
def sampleRepo : Repository := ⟨["main.py", "ignoreme.py"], [], ["main.py"]⟩

/-- Witness for C6: dropping the non-fixable failing Check from the run
leaves report and counters unchanged. -/
theorem fix_mode_unfixable_omitted_witness :
    (fixMode true false ([] ++ sampleUnfixableCheck :: []) sampleRepo).report =
        (fixMode true false ([] ++ []) sampleRepo).report
    ∧ (fixMode true false ([] ++ sampleUnfixableCheck :: []) sampleRepo).problemsFound =
        (fixMode true false ([] ++ []) sampleRepo).problemsFound
    ∧ (fixMode true false ([] ++ sampleUnfixableCheck :: []) sampleRepo).problemsFixed =
        (fixMode true false ([] ++ []) sampleRepo).problemsFixed := by
  have t := fix_mode_unfixable_omitted true false [] []
    sampleUnfixableCheck sampleRepo (Or.inl rfl)
  exact ⟨t.1, t.2.1, t.2.2.1⟩

/-- The autofix commands that one fix-mode pass executes, in order: for every
executed Check whose `Problem` carries an autofix and which is fixable, its
autofix command — and nothing else — unless dry-run suppresses them all. -/
def expectedFixes (dryRun : Bool) (repo : Repository)
    (checks : List EngineCheck) : List FsEvent :=
  if dryRun then []
  else checks.filterMap fun c =>
    match (c.run repo).problem with
    | some pr => if c.fixable then pr.autofix.map FsEvent.applyFix else none
    | none => none

theorem filter_isMutation_runCmds (cmds : List (List String)) :
    (cmds.map FsEvent.runCmd).filter isMutation = [] := by
  induction cmds with
  | nil => rfl
  | cons c cs ih => simp [List.filter_cons, isMutation, ih]

theorem fixRun_mutations (repo : Repository) (l : List EngineCheck) :
    (fixRun false repo l).events.filter isMutation = expectedFixes false repo l
    ∧ (fixRun false repo l).fixesApplied = (expectedFixes false repo l).length := by
  induction l with
  | nil => exact ⟨rfl, rfl⟩
  | cons c cs ih =>
    cases hp : (c.run repo).problem with
    | none =>
      constructor
      · simp [fixRun, stApp, List.filter_append, fixDelta, hp, fixBase,
          filter_isMutation_runCmds, expectedFixes, List.filterMap_cons, ih.1]
      · simp [fixRun, stApp, fixDelta, hp, fixBase, expectedFixes,
          List.filterMap_cons, ih.2]
    | some pr =>
      cases ha : pr.autofix with
      | none =>
        constructor
        · simp [fixRun, stApp, List.filter_append, fixDelta, hp, ha, fixBase,
            filter_isMutation_runCmds, expectedFixes, List.filterMap_cons, ih.1]
        · simp [fixRun, stApp, fixDelta, hp, ha, fixBase, expectedFixes,
            List.filterMap_cons, ih.2]
      | some fixCmd =>
        by_cases hfx : c.fixable
        · constructor
          · simp [fixRun, stApp, List.filter_append, fixDelta, hp, ha, hfx,
              fixBase, filter_isMutation_runCmds, List.filter_cons, isMutation,
              expectedFixes, List.filterMap_cons, ih.1]
          · simp [fixRun, stApp, fixDelta, hp, ha, hfx, fixBase, expectedFixes,
              List.filterMap_cons, ih.2]
            omega
        · rw [Bool.not_eq_true] at hfx
          constructor
          · simp [fixRun, stApp, List.filter_append, fixDelta, hp, ha, hfx,
              fixBase, filter_isMutation_runCmds, expectedFixes,
              List.filterMap_cons, ih.1]
          · simp [fixRun, stApp, fixDelta, hp, ha, hfx, fixBase, expectedFixes,
              List.filterMap_cons, ih.2]

/-- **C7**: in fix mode without dry-run, the engine's only mutations of
external repository state are the executed autofix commands followed — when
at least one fix was applied — by one final blanket re-stage, `git add` over
every originally staged or unstaged file not staged for deletion, regardless
of which files the fixes touched. -/
theorem fix_mode_frame (checkAll : Bool) (checks : List EngineCheck)
    (repo : Repository) :
    ((fixMode checkAll false checks repo).events.filter isMutation =
      expectedFixes false repo (activeChecks checkAll checks)
        ++ (if 0 < (fixMode checkAll false checks repo).fixesApplied
            then [FsEvent.restage (restageCmd repo)] else []))
    ∧ ((fixMode checkAll false checks repo).fixesApplied =
        (expectedFixes false repo (activeChecks checkAll checks)).length)
    ∧ (restageCmd repo = ["git", "add"] ++ restageFiles repo)
    ∧ (∀ p, p ∈ restageFiles repo ↔
        (p ∈ repo.staged ∨ p ∈ repo.unstaged) ∧ p ∉ repo.stagedForDeletion) := by
  obtain ⟨hmut, happ⟩ := fixRun_mutations repo (activeChecks checkAll checks)
  refine ⟨?_, ?_, rfl, ?_⟩
  · rw [fixMode_fixesApplied, fixMode]
    split
    · rename_i hcond
      simp only [stApp, List.filter_append, hmut]
      rw [if_pos hcond.1]
      simp [isMutation, List.filter_cons]
    · rename_i hcond
      have hz : ¬ 0 < (fixRun false repo
          (activeChecks checkAll checks)).fixesApplied :=
        fun hgt => hcond ⟨hgt, rfl⟩
      rw [if_neg hz, hmut]
      simp
  · rw [fixMode_fixesApplied]
    exact happ
  · intro p
    rw [restageFiles, mem_firstDedup]
    simp only [List.mem_filter, List.mem_append, decide_eq_true_eq]

/-! ## Exit codes (from `main.py`; engine return value from spec 4.3) -/

/-- The counters of one `check_mode()` run (spec 4.3, check-mode steps 1-5):
every executed Check increments `checksRun`, every reported `Problem`
increments `problemsFound`. -/
structure CheckSummary where
  checksRun : Nat
  problemsFound : Nat
deriving DecidableEq

/-- Modelled from the spec: `check_mode()` of the `Precommit` engine
(`precommitlib/lib.py`, absent from the sources). -/
def checkMode (checkAll : Bool) (checks : List EngineCheck)
    (repo : Repository) : CheckSummary :=
  ⟨(activeChecks checkAll checks).length,
   ((activeChecks checkAll checks).filter
     fun c => ((c.run repo).problem).isSome).length⟩

/-- Spec 4.3 check-mode step 7: `Precommit.check()` returns whether
`problemsFound > 0`. -/
def precommitCheckReturn (checkAll : Bool) (checks : List EngineCheck)
    (repo : Repository) : Bool :=
  decide (0 < (checkMode checkAll checks repo).problemsFound)

/-- `main_check` of `main.py`: `sys.exit(1)` iff `precommit.check()` returned
true, else the process finishes with status 0. -/
def main_check (checkAll : Bool) (checks : List EngineCheck)
    (repo : Repository) : Nat :=
  if precommitCheckReturn checkAll checks repo then 1 else 0

/-- `main_fix` of `main.py`: run `precommit.fix()`, ignore its outcome, and
finish with status 0. -/
def main_fix (checkAll dryRun : Bool) (checks : List EngineCheck)
    (repo : Repository) : Nat :=
  match fixMode checkAll dryRun checks repo with
  | _ => 0

/-- **C3**: the check subcommand exits 0 exactly when no executed Check
reported a `Problem` and 1 exactly when `problemsFound > 0`; the fix
subcommand always exits 0 on its normal path, whatever problems were detected
or fixed. -/
theorem exit_codes (checkAll dryRun : Bool) (checks : List EngineCheck)
    (repo : Repository) :
    (main_check checkAll checks repo = 0 ↔
        (checkMode checkAll checks repo).problemsFound = 0)
    ∧ (main_check checkAll checks repo = 1 ↔
        0 < (checkMode checkAll checks repo).problemsFound)
    ∧ main_fix checkAll dryRun checks repo = 0 := by
  have hfix : main_fix checkAll dryRun checks repo = 0 := rfl
  by_cases h : 0 < (checkMode checkAll checks repo).problemsFound
  · have hb : precommitCheckReturn checkAll checks repo = true := decide_eq_true h
    have hm : main_check checkAll checks repo = 1 := by
      rw [main_check, hb]
      decide
    rw [hm]
    exact ⟨⟨fun h' => by omega, fun h' => by omega⟩,
      ⟨fun _ => h, fun _ => rfl⟩, hfix⟩
  · have hb : precommitCheckReturn checkAll checks repo = false := decide_eq_false h
    have hm : main_check checkAll checks repo = 0 := by
      rw [main_check, hb]
      decide
    rw [hm]
    exact ⟨⟨fun _ => by omega, fun _ => rfl⟩,
      ⟨fun h' => by omega, fun h' => absurd h' h⟩, hfix⟩

end Precommit
